import Mathlib

/-!
Verification of the DeepFool Linf attack implementation
(`img_attacks/deepfool.py`, class `DeepfoolLinfAttack`).

Embedding conventions:
* Tensors are total functions.  A batch is `x : ℕ → ℕ → ℚ` (sample index,
  feature index); only indices below the batch size `N` and the flattened
  feature size `d` are meaningful.  Arithmetic is exact (`ℚ`); the float
  literals `1e-8`, `1e-4`, defaults `0.1`, `0.02` become the corresponding
  rationals.
* The classifier `predict` is an opaque collaborator.  It is modelled by a
  `Classifier`: per-sample logits together with the gradient of each logit
  with respect to the input (reverse-mode differentiation is the external
  capability the code relies on; `backward` of the summed delta logits adds
  the per-sample gradient difference into the `x.grad` accumulation buffer,
  which we carry explicitly).
* `torch.argmax` / `torch.argmin` return the first extremal index; `argsort`
  ascending followed by `flip(-1)` is modelled by a stable ascending
  insertion sort, reversed.
* Python `assert` failures and the out-of-range `torch.gather` become
  `Except.error`.  `range(nb_iter)` over a possibly negative `nb_iter` is an
  `Int.toNat` fuel.
-/

namespace DeepfoolLinf

set_option maxRecDepth 100000
set_option maxHeartbeats 4000000

section

attribute [local semireducible] Rat.add Rat.mul Rat.inv Rat.sub

/-- torch `clamp(v, lo, hi)`: lower bound applied first, then the upper one. -/
def clampQ (v lo hi : ℚ) : ℚ := min (max v lo) hi

/-- torch `sign`: -1, 0 or 1. -/
def signQ (v : ℚ) : ℚ := if v < 0 then -1 else if v = 0 then 0 else 1

/-- torch `argmax` over the first `C` indices: first index attaining the
maximum (later indices replace the accumulator only on strict increase). -/
def argmaxIdx (f : ℕ → ℚ) (C : ℕ) : ℕ :=
  (List.range C).foldl (fun b i => if f b < f i then i else b) 0

/-- torch `argmin` over the first `K` indices: first index attaining the
minimum (later indices replace the accumulator only on strict decrease).
This is the challenger selection of `perturb` (line 148). -/
def argminQ (f : ℕ → ℚ) (K : ℕ) : ℕ :=
  (List.range K).foldl (fun b i => if f i < f b then i else b) 0

/-- Stable ascending insertion: `i` is inserted after every already placed
index of value `≤ f i`. -/
def insertAsc (f : ℕ → ℚ) (i : ℕ) : List ℕ → List ℕ
  | [] => [i]
  | j :: rest => if f j ≤ f i then j :: insertAsc f i rest else i :: j :: rest

/-- Model of `logits.argsort(axis=-1).flip(-1)` (line 111): indices `0..C-1`
sorted by descending value. -/
def argsortDesc (f : ℕ → ℚ) (C : ℕ) : List ℕ :=
  ((List.range C).foldl (fun acc i => insertAsc f i acc) []).reverse

theorem clampQ_le_hi (v lo hi : ℚ) : clampQ v lo hi ≤ hi :=
  min_le_right _ _

theorem lo_le_clampQ (v : ℚ) {lo hi : ℚ} (h : lo ≤ hi) : lo ≤ clampQ v lo hi :=
  le_min (le_max_right _ _) h

theorem clampQ_of_mem {v lo hi : ℚ} (h1 : lo ≤ v) (h2 : v ≤ hi) :
    clampQ v lo hi = v := by
  unfold clampQ
  rw [max_eq_left h1, min_eq_left h2]

theorem abs_clampQ_le {e : ℚ} (v : ℚ) (he : 0 ≤ e) : |clampQ v (-e) e| ≤ e :=
  abs_le.mpr ⟨lo_le_clampQ v (by linarith), clampQ_le_hi v (-e) e⟩

/-- Clamping into an interval containing `t` cannot move a point away from
`t`: clamping is a projection. -/
theorem abs_clampQ_sub_le {t lo hi : ℚ} (v : ℚ) (h1 : lo ≤ t) (h2 : t ≤ hi) :
    |clampQ v lo hi - t| ≤ |v - t| := by
  unfold clampQ
  rcases le_total v lo with hv | hv
  · rw [max_eq_right hv, min_eq_left (h1.trans h2)]
    rw [abs_of_nonpos (by linarith), abs_of_nonpos (by linarith)]
    linarith
  · rw [max_eq_left hv]
    rcases le_total v hi with hw | hw
    · rw [min_eq_left hw]
    · rw [min_eq_right hw]
      rw [abs_of_nonneg (by linarith), abs_of_nonneg (by linarith)]
      linarith

theorem argminQ_spec (f : ℕ → ℚ) :
    ∀ K : ℕ, 0 < K →
      argminQ f K < K ∧ (∀ k < K, f (argminQ f K) ≤ f k) ∧
        ∀ k < argminQ f K, f (argminQ f K) < f k := by
  intro K
  induction K with
  | zero => intro h; exact absurd h (by omega)
  | succ m ih =>
    intro _
    have hstep : argminQ f (m + 1) =
        (if f m < f (argminQ f m) then m else argminQ f m) := by
      unfold argminQ
      rw [List.range_succ, List.foldl_append]
      rfl
    rcases Nat.eq_zero_or_pos m with hm | hm
    · subst hm
      have h0 : argminQ f 1 = 0 := by
        simp [argminQ, List.range_succ]
      rw [h0]
      refine ⟨by omega, ?_, by omega⟩
      intro k hk
      interval_cases k
      exact le_refl _
    · obtain ⟨hb, hmin, hfirst⟩ := ih hm
      rw [hstep]
      by_cases hc : f m < f (argminQ f m)
      · rw [if_pos hc]
        refine ⟨by omega, ?_, ?_⟩
        · intro k hk
          rcases Nat.lt_succ_iff_lt_or_eq.mp hk with hk2 | hk2
          · exact le_of_lt (lt_of_lt_of_le hc (hmin k hk2))
          · subst hk2; exact le_refl _
        · intro k hk
          exact lt_of_lt_of_le hc (hmin k (by omega))
      · rw [if_neg hc]
        refine ⟨by omega, ?_, hfirst⟩
        intro k hk
        rcases Nat.lt_succ_iff_lt_or_eq.mp hk with hk2 | hk2
        · exact hmin k hk2
        · subst hk2; exact le_of_not_lt hc

/-- The opaque `predict` collaborator: per-sample logits over `C` classes,
together with the gradient of each logit with respect to the input (the
reverse-mode differentiation capability required by the classifier
contract).  The batch logits of `predict(x)` at sample `n` are
`logits (x n)`, and `backward` of the summed delta logits deposits, at
sample `n`, the difference of the two involved logit gradients. -/
structure Classifier where
  C : ℕ
  logits : (ℕ → ℚ) → ℕ → ℚ
  gradLogits : (ℕ → ℚ) → ℕ → ℕ → ℚ

/-- Constructor-time configuration of `DeepfoolLinfAttack.__init__`
(lines 37-52), in source order.  `nb_iter` is an integer so that the
non-positive malformed values of claim C9 are expressible. -/
structure AttackConf where
  num_classes : Option ℕ
  nb_iter : ℤ
  eps : ℚ
  random_class : Bool
  overshoot : ℚ
  clip_min : ℚ
  clip_max : ℚ

/-- Criterion `is_adv` (lines 54-57): top-1 prediction differs from the
label. -/
def is_adv (C : ℕ) (lg : ℕ → ℚ) (yn : ℕ) : Bool :=
  decide (argmaxIdx lg C ≠ yn)

/-- Result dictionary of `get_deltas_logits` / `get_grads`; `grads` is the
entry added by `get_grads` (line 77). -/
structure GradsOut where
  deltas : ℕ → ℚ
  grads : ℕ → ℕ → ℚ
  logits : ℕ → ℕ → ℚ

instance : Inhabited GradsOut :=
  ⟨⟨fun _ => 0, fun _ _ => 0, fun _ _ => 0⟩⟩

/-- Loss function `get_deltas_logits` (lines 59-72): per sample, the score
of challenger class `classes[:, k]` minus the score of `classes[:, 0]`, plus
the raw logits.  The `grads` entry is not yet present (placeholder zero). -/
def get_deltas_logits (M : Classifier) (x : ℕ → ℕ → ℚ) (k : ℕ)
    (classes : ℕ → List ℕ) : GradsOut :=
  { deltas := fun n =>
      M.logits (x n) ((classes n).getD k 0) - M.logits (x n) ((classes n).getD 0 0),
    grads := fun _ _ => 0,
    logits := fun n => M.logits (x n) }

/-- Gradient of `sum_deltas` with respect to the input: since each sample's
delta logit depends only on that sample's row, `backward` deposits at row
`n` the gradient of `logits (x n) ik - logits (x n) i0`. -/
def deltaGrad (M : Classifier) (x : ℕ → ℕ → ℚ) (k : ℕ)
    (classes : ℕ → List ℕ) : ℕ → ℕ → ℚ :=
  fun n j =>
    M.gradLogits (x n) ((classes n).getD k 0) j -
      M.gradLogits (x n) ((classes n).getD 0 0) j

/-- Gradient extraction `get_grads` (lines 74-79).  `buf` is the gradient
accumulation buffer `x.grad`; `backward` adds into it, the clone of the
accumulated buffer is returned as `grads`, and `x.grad.data.zero_()` resets
the buffer. -/
def get_grads (M : Classifier) (x : ℕ → ℕ → ℚ) (k : ℕ)
    (classes : ℕ → List ℕ) (buf : ℕ → ℕ → ℚ) :
    GradsOut × (ℕ → ℕ → ℚ) :=
  ({ get_deltas_logits M x k classes with
      grads := fun n j => buf n j + deltaGrad M x k classes n j },
    fun _ _ => 0)

/-- Record of one `get_grads` call: challenger index, returned dictionary,
and the accumulation buffer right before and right after the call. -/
structure GradCallRec where
  k : ℕ
  out : GradsOut
  bufBefore : ℕ → ℕ → ℚ
  bufAfter : ℕ → ℕ → ℚ

instance : Inhabited GradCallRec :=
  ⟨⟨0, default, fun _ _ => 0, fun _ _ => 0⟩⟩

/-- The sequence of `get_grads` calls of one iteration (the list
comprehension of line 136, and in general any chain of `get_grads` calls on
the same working point), threading the gradient accumulation buffer. -/
def collectDiffs (M : Classifier) (x : ℕ → ℕ → ℚ) (classes : ℕ → List ℕ) :
    List ℕ → (ℕ → ℕ → ℚ) → List GradCallRec
  | [], _ => []
  | k :: ks, buf =>
    ⟨k, (get_grads M x k classes buf).1, buf, (get_grads M x k classes buf).2⟩ ::
      collectDiffs M x classes ks (get_grads M x k classes buf).2

/-- Normalized boundary distances `get_distances` (lines 81-83): per sample
and challenger, the absolute delta logit divided by the sum of absolute
gradient entries over all non-batch dimensions (the `flatten` from dim 2
followed by `abs().sum(axis=-1)`, over `d` flattened features) plus `1e-8`. -/
def get_distances (d : ℕ) (deltas : ℕ → ℕ → ℚ) (grads : ℕ → ℕ → ℕ → ℚ) :
    ℕ → ℕ → ℚ :=
  fun n k => |deltas n k| /
    (((List.range d).map (fun j => |grads n k j|)).sum + 1 / 100000000)

/-- Step direction `get_perturbations` (lines 85-86): the broadcast selected
distance times the sign of the selected gradient. -/
def get_perturbations (distances : ℕ → ℚ) (grads : ℕ → ℕ → ℚ) : ℕ → ℕ → ℚ :=
  fun n j => distances n * signQ (grads n j)

/-- Stacking `torch.stack([d['deltas'] ...], dim=-1)` (line 138): candidate
axis indexed by position in the diffs list. -/
def stackDeltas (diffs : List GradsOut) : ℕ → ℕ → ℚ :=
  fun n c => (diffs.getD c default).deltas n

/-- Stacking `torch.stack([d['grads'] ...], dim=1)` (line 139). -/
def stackGrads (diffs : List GradsOut) : ℕ → ℕ → ℕ → ℚ :=
  fun n c j => (diffs.getD c default).grads n j

/-- Best challenger per sample (line 148): stable argmin of the normalized
distances over the `K - 1` candidates. -/
def bestIdx (d K : ℕ) (diffs : List GradsOut) : ℕ → ℕ :=
  fun n => argminQ (fun c => get_distances d (stackDeltas diffs) (stackGrads diffs) n c) (K - 1)

/-- Gathered distance with the `1e-4` stability offset (lines 149, 157). -/
def selDist (d K : ℕ) (diffs : List GradsOut) : ℕ → ℚ :=
  fun n =>
    get_distances d (stackDeltas diffs) (stackGrads diffs) n (bestIdx d K diffs n) + 1 / 10000

/-- Gathered gradient (line 151). -/
def selGrad (d K : ℕ) (diffs : List GradsOut) : ℕ → ℕ → ℚ :=
  fun n j => stackGrads diffs n (bestIdx d K diffs n) j

/-- Batch state owned by the attack driver: working point `x` and cumulative
perturbation `p_total`. -/
structure LoopState where
  x : ℕ → ℕ → ℚ
  pTotal : ℕ → ℕ → ℚ

/-- Loop context: classifier, labels, candidate class lists, effective class
count `K`, batch size `N`, flattened feature size `d`, configuration scalars
and the immutable original input `x0` (line 126). -/
structure LoopCtx where
  M : Classifier
  y : ℕ → ℕ
  classes : ℕ → List ℕ
  K : ℕ
  N : ℕ
  d : ℕ
  eps : ℚ
  overshoot : ℚ
  clip_min : ℚ
  clip_max : ℚ
  x0 : ℕ → ℕ → ℚ

/-- Per-sample adversarial mask of an iteration, computed from the logits of
the k = 1 pass (line 132): `diffs[0]['logits']` are the logits of `predict`
at the current working point. -/
def iterAdv (ctx : LoopCtx) (st : LoopState) : ℕ → Bool :=
  fun n =>
    is_adv ctx.M.C
      ((get_grads ctx.M st.x 1 ctx.classes (fun _ _ => 0)).1.logits n) (ctx.y n)

/-- The diffs list of one iteration: the k = 1 record first (line 130), then
the records for k in `range(2, num_classes)` (line 136), with the gradient
buffer threaded from the freshly created working point (zero). -/
def iterDiffs (ctx : LoopCtx) (st : LoopState) : List GradsOut :=
  (get_grads ctx.M st.x 1 ctx.classes (fun _ _ => 0)).1 ::
    (collectDiffs ctx.M st.x ctx.classes ((List.range ctx.K).drop 2)
        (get_grads ctx.M st.x 1 ctx.classes (fun _ _ => 0)).2).map
      (fun r => r.out)

/-- State update of one iteration (lines 144-167): select the best
challenger, accumulate the step into `p_total`, clamp `p_total` into
`[-eps, eps]`, rebuild the working point from `x0` for non-adversarial
samples while keeping the previous point for adversarial ones, and clamp
the whole batch into `[clip_min, clip_max]`. -/
def iterUpdate (ctx : LoopCtx) (st : LoopState) (adv : ℕ → Bool)
    (diffs : List GradsOut) : LoopState :=
  let pStep := get_perturbations (selDist ctx.d ctx.K diffs) (selGrad ctx.d ctx.K diffs)
  let pT : ℕ → ℕ → ℚ :=
    fun n j => clampQ (st.pTotal n j + pStep n j) (-ctx.eps) ctx.eps
  { x := fun n j =>
      clampQ (if adv n then st.x n j else ctx.x0 n j + (1 + ctx.overshoot) * pT n j)
        ctx.clip_min ctx.clip_max,
    pTotal := pT }

/-- One iteration of the loop body (lines 128-167).  Returns the list of
challenger indices evaluated by `get_grads` in this iteration, and either
the next state or `none` for the full-batch convergence break (line 133).
The shape assertion of line 140 (`deltas.shape == (N, num_classes - 1)`)
fails exactly when the diffs list length differs from `num_classes - 1`. -/
def iterStep (ctx : LoopCtx) (st : LoopState) :
    Except String (List ℕ × Option LoopState) :=
  if (List.range ctx.N).all (iterAdv ctx st) then .ok ([1], none)
  else if (iterDiffs ctx st).length = ctx.K - 1 then
    .ok (1 :: (List.range ctx.K).drop 2,
      some (iterUpdate ctx st (iterAdv ctx st) (iterDiffs ctx st)))
  else .error "assertion failed: deltas.shape"

/-- The attack loop `for _ in range(nb_iter)` (line 128), instrumented with
a trace: one entry per executed iteration, holding the state at the top of
the iteration and the challenger indices evaluated in it. -/
def runLoop (ctx : LoopCtx) : ℕ → LoopState → Except String (LoopState × List (LoopState × List ℕ))
  | 0, st => .ok (st, [])
  | fuel + 1, st =>
    match iterStep ctx st with
    | .error e => .error e
    | .ok (ks, none) => .ok (st, [(st, ks)])
    | .ok (ks, some st2) =>
      match runLoop ctx fuel st2 with
      | .error e => .error e
      | .ok p => .ok (p.1, (st, ks) :: p.2)

/-- The loop without its trace; `perturb` returns the `x` of this state. -/
def runAtk (ctx : LoopCtx) (fuel : ℕ) (st : LoopState) : Except String LoopState :=
  Except.map Prod.fst (runLoop ctx fuel st)

/-- Candidate class construction of line 111: initial logits argsorted in
descending order.  The `torch.cat` of lines 114-115 computes a replacement
candidate pair in randomized-class mode but its result is never assigned,
so the lists built here are the ones every iteration uses in either mode. -/
def perturbClasses (M : Classifier) (x : ℕ → ℕ → ℚ) : ℕ → List ℕ :=
  fun n => argsortDesc (M.logits (x n)) M.C

/-- Effective `self.num_classes` after the reassignment of lines 112-121:
2 in randomized-class mode, otherwise the full class count when unset, or
the configured count capped by the class count. -/
def effectiveK (M : Classifier) (cf : AttackConf) : ℕ :=
  if AttackConf.random_class cf then 2
  else
    match cf.num_classes with
    | none => M.C
    | some k => min k M.C

/-- Validity of the randomized-mode `torch.gather` of line 115: every drawn
index must be inside the `C` columns of `classes`. -/
def randOk (M : Classifier) (rand : ℕ → ℕ) (N : ℕ) : Bool :=
  (List.range N).all fun n => decide (rand n < M.C)

/-- Loop context assembled by `perturb` before entering the loop. -/
def perturbCtx (M : Classifier) (cf : AttackConf) (x : ℕ → ℕ → ℚ) (y : ℕ → ℕ)
    (N d : ℕ) : LoopCtx :=
  { M := M, y := y, classes := perturbClasses M x, K := effectiveK M cf,
    N := N, d := d, eps := cf.eps, overshoot := cf.overshoot,
    clip_min := cf.clip_min, clip_max := cf.clip_max, x0 := x }

/-- Initial batch state: cloned input and `p_total = torch.zeros_like(x)`
(line 127). -/
def initState (x : ℕ → ℕ → ℚ) : LoopState :=
  ⟨x, fun _ _ => 0⟩

/-- The attack object's configuration after a `perturb` call: lines 112-121
overwrite `self.num_classes` with the effective class count, every other
constructor-time field is untouched. -/
def confAfter (M : Classifier) (cf : AttackConf) : AttackConf :=
  ⟨some (effectiveK M cf), cf.nb_iter, cf.eps, AttackConf.random_class cf,
    cf.overshoot, cf.clip_min, cf.clip_max⟩

/-- The attack entry point `perturb` (lines 97-169).  `rand` is the oracle
for the per-sample draws of `random_(1, self.num_classes)` (line 113); in
randomized-class mode an out-of-range draw makes the (otherwise discarded)
`torch.gather` fail.  Returns the detached adversarial batch together with
the attack object's configuration after the call (`self.num_classes` is
reassigned by `perturb`). -/
def perturb (M : Classifier) (cf : AttackConf) (rand : ℕ → ℕ) (N d : ℕ)
    (x : ℕ → ℕ → ℚ) (y : ℕ → ℕ) :
    Except String ((ℕ → ℕ → ℚ) × AttackConf) :=
  if AttackConf.random_class cf && !randOk M rand N then
    .error "gather: index out of range"
  else
    match runLoop (perturbCtx M cf x y N d) cf.nb_iter.toNat (initState x) with
    | .error e => .error e
    | .ok p => .ok (p.1.x, confAfter M cf)


theorem effectiveK_confAfter (M : Classifier) (cf : AttackConf) :
    effectiveK M (confAfter M cf) = effectiveK M cf := by
  unfold effectiveK
  rw [show AttackConf.random_class (confAfter M cf) = AttackConf.random_class cf from rfl,
    show (confAfter M cf).num_classes = some (effectiveK M cf) from rfl]
  cases hbb : AttackConf.random_class cf with
  | true => rfl
  | false =>
    have h2 : effectiveK M cf =
        match cf.num_classes with
        | none => M.C
        | some k => min k M.C := by
      unfold effectiveK
      rw [hbb]
      rfl
    simp only [Bool.false_eq_true, if_false]
    rw [h2]
    rcases hnn : cf.num_classes with - | k
    · simp
    · rw [min_assoc, min_self]

theorem confAfter_confAfter (M : Classifier) (cf : AttackConf) :
    confAfter M (confAfter M cf) = confAfter M cf := by
  have h : confAfter M (confAfter M cf) =
      ⟨some (effectiveK M (confAfter M cf)), cf.nb_iter, cf.eps,
        AttackConf.random_class cf, cf.overshoot, cf.clip_min, cf.clip_max⟩ := rfl
  rw [h, effectiveK_confAfter]
  rfl

theorem perturbCtx_confAfter (M : Classifier) (cf : AttackConf) (x : ℕ → ℕ → ℚ)
    (y : ℕ → ℕ) (N d : ℕ) :
    perturbCtx M (confAfter M cf) x y N d = perturbCtx M cf x y N d := by
  unfold perturbCtx
  rw [effectiveK_confAfter]
  rfl

/-- When the randomized-mode gather check passes, `perturb` is the loop
followed by the configuration overwrite. -/
theorem perturb_eq_of_check (M : Classifier) (cf : AttackConf) (rand : ℕ → ℕ)
    (N d : ℕ) (x : ℕ → ℕ → ℚ) (y : ℕ → ℕ)
    (h : (AttackConf.random_class cf && !randOk M rand N) = false) :
    perturb M cf rand N d x y =
      match runLoop (perturbCtx M cf x y N d) cf.nb_iter.toNat (initState x) with
      | .error e => .error e
      | .ok p => .ok (p.1.x, confAfter M cf) := by
  unfold perturb
  rw [h]
  rfl

theorem iterAdv_eq (ctx : LoopCtx) (st : LoopState) (n : ℕ) :
    iterAdv ctx st n = is_adv ctx.M.C (ctx.M.logits (st.x n)) (ctx.y n) := rfl

theorem runAtk_zero (ctx : LoopCtx) (st : LoopState) :
    runAtk ctx 0 st = .ok st := rfl

theorem runAtk_succ_err {ctx : LoopCtx} {st : LoopState} {e : String}
    (h : iterStep ctx st = .error e) (fuel : ℕ) :
    runAtk ctx (fuel + 1) st = .error e := by
  unfold runAtk runLoop
  rw [h]
  rfl

theorem runAtk_succ_break {ctx : LoopCtx} {st : LoopState} {ks : List ℕ}
    (h : iterStep ctx st = .ok (ks, none)) (fuel : ℕ) :
    runAtk ctx (fuel + 1) st = .ok st := by
  unfold runAtk runLoop
  rw [h]
  rfl

theorem runLoop_succ (ctx : LoopCtx) (st : LoopState) (fuel : ℕ) :
    runLoop ctx (fuel + 1) st =
      match iterStep ctx st with
      | .error e => .error e
      | .ok (ks, none) => .ok (st, [(st, ks)])
      | .ok (ks, some st2) =>
        match runLoop ctx fuel st2 with
        | .error e => .error e
        | .ok p => .ok (p.1, (st, ks) :: p.2) := rfl

theorem runAtk_succ_cont {ctx : LoopCtx} {st st2 : LoopState} {ks : List ℕ}
    (h : iterStep ctx st = .ok (ks, some st2)) (fuel : ℕ) :
    runAtk ctx (fuel + 1) st = runAtk ctx fuel st2 := by
  unfold runAtk
  rw [runLoop_succ, h]
  rcases hr : runLoop ctx fuel st2 with e | p <;> simp [Except.map, hr]

/-- Inversion for a continuing iteration: the next state is the update from
the current one, and the batch was not fully adversarial. -/
theorem iterStep_some_inv {ctx : LoopCtx} {st st2 : LoopState} {ks : List ℕ}
    (h : iterStep ctx st = .ok (ks, some st2)) :
    st2 = iterUpdate ctx st (iterAdv ctx st) (iterDiffs ctx st) ∧
      (List.range ctx.N).all (iterAdv ctx st) = false := by
  unfold iterStep at h
  by_cases hall : (List.range ctx.N).all (iterAdv ctx st)
  · rw [if_pos hall] at h
    exact absurd (congrArg (fun r => match r with
      | .ok (_, some _) => True
      | _ => False) h) (by simp)
  · rw [if_neg hall] at h
    by_cases hlen : (iterDiffs ctx st).length = ctx.K - 1
    · rw [if_pos hlen] at h
      refine ⟨?_, by simpa using hall⟩
      have h2 := congrArg (fun r => match r with
        | Except.ok (_, some s) => s
        | _ => st2) h
      simpa using h2.symm
    · rw [if_neg hlen] at h
      exact absurd h (by simp)

/-- Inversion for a breaking iteration: the break only fires on a fully
adversarial batch, and only the k = 1 challenger was evaluated. -/
theorem iterStep_none_inv {ctx : LoopCtx} {st : LoopState} {ks : List ℕ}
    (h : iterStep ctx st = .ok (ks, none)) :
    ks = [1] ∧ (List.range ctx.N).all (iterAdv ctx st) = true := by
  unfold iterStep at h
  by_cases hall : (List.range ctx.N).all (iterAdv ctx st)
  · rw [if_pos hall] at h
    refine ⟨?_, hall⟩
    have h2 := congrArg (fun r => match r with
      | Except.ok ((ks2 : List ℕ), (none : Option LoopState)) => ks2
      | _ => ks) h
    simpa using h2.symm
  · rw [if_neg hall] at h
    by_cases hlen : (iterDiffs ctx st).length = ctx.K - 1
    · rw [if_pos hlen] at h
      exact absurd h (by simp)
    · rw [if_neg hlen] at h
      exact absurd h (by simp)

/-- A fully adversarial batch breaks out of the loop immediately, with only
the k = 1 challenger evaluated. -/
theorem iterStep_break {ctx : LoopCtx} {st : LoopState}
    (h : (List.range ctx.N).all (iterAdv ctx st) = true) :
    iterStep ctx st = .ok ([1], none) := by
  unfold iterStep
  rw [if_pos h]

/-- Once the batch is fully adversarial the loop no longer changes the
state, for any remaining fuel. -/
theorem runAtk_break_idem {ctx : LoopCtx} {st : LoopState}
    (h : (List.range ctx.N).all (iterAdv ctx st) = true) (fuel : ℕ) :
    runAtk ctx fuel st = .ok st := by
  cases fuel with
  | zero => rfl
  | succ m => exact runAtk_succ_break (iterStep_break h) m

/-- Splitting the loop: running `a + b` iterations is running `a` and then
`b` (the convergence break re-fires on a converged state, so the state
composes even across an early break). -/
theorem runAtk_add (ctx : LoopCtx) (a b : ℕ) (st : LoopState) :
    runAtk ctx (a + b) st = (runAtk ctx a st).bind (runAtk ctx b) := by
  induction a generalizing st with
  | zero =>
    rw [Nat.zero_add, runAtk_zero]
    rfl
  | succ m ih =>
    have hadd : m + 1 + b = (m + b) + 1 := by omega
    rw [hadd]
    rcases h : iterStep ctx st with e | ⟨ks, ost⟩
    · rw [runAtk_succ_err h, runAtk_succ_err h]
      rfl
    · cases ost with
      | none =>
        rw [runAtk_succ_break h, runAtk_succ_break h]
        have hall : (List.range ctx.N).all (iterAdv ctx st) = true := by
          unfold iterStep at h
          by_cases hc : (List.range ctx.N).all (iterAdv ctx st)
          · exact hc
          · rw [if_neg hc] at h
            by_cases hlen : (iterDiffs ctx st).length = ctx.K - 1
            · rw [if_pos hlen] at h
              exact absurd h (by simp)
            · rw [if_neg hlen] at h
              exact absurd h (by simp)
        rw [Except.bind, runAtk_break_idem hall]
      | some st2 =>
        rw [runAtk_succ_cont h, runAtk_succ_cont h, ih]

/-- Inversion of a successful `perturb` call: the returned configuration is
the input one with `num_classes` overwritten, and the returned batch is the
final working point of the loop started at the cloned input. -/
theorem perturb_ok_inv {M : Classifier} {cf : AttackConf} {rand : ℕ → ℕ}
    {N d : ℕ} {x : ℕ → ℕ → ℚ} {y : ℕ → ℕ} {out : ℕ → ℕ → ℚ} {cf2 : AttackConf}
    (h : perturb M cf rand N d x y = .ok (out, cf2)) :
    cf2 = confAfter M cf ∧
      ∃ st : LoopState,
        runAtk (perturbCtx M cf x y N d) cf.nb_iter.toNat (initState x) = .ok st ∧
          out = st.x := by
  unfold perturb at h
  by_cases hg : (AttackConf.random_class cf && !randOk M rand N) = true
  · rw [if_pos hg] at h
    exact absurd h (by simp)
  · rw [if_neg hg] at h
    rcases hr : runLoop (perturbCtx M cf x y N d) cf.nb_iter.toNat (initState x)
      with e | p
    · rw [hr] at h
      exact absurd h (by simp)
    · rw [hr] at h
      have hout : p.1.x = out ∧ cf2 = confAfter M cf := by
        have h1 := congrArg (fun r => match r with
          | Except.ok (q : (ℕ → ℕ → ℚ) × AttackConf) => q.1
          | _ => out) h
        have h2 := congrArg (fun r => match r with
          | Except.ok (q : (ℕ → ℕ → ℚ) × AttackConf) => q.2
          | _ => cf2) h
        simp at h1 h2
        exact ⟨h1, h2.symm⟩
      refine ⟨hout.2, p.1, ?_, hout.1.symm⟩
      unfold runAtk
      rw [hr]
      rfl

/-- A successful concrete `perturb` call equals the pair of its extracted
output and the overwritten configuration. -/
theorem perturb_extract (M : Classifier) (cf : AttackConf) (rand : ℕ → ℕ)
    (N d : ℕ) (x : ℕ → ℕ → ℚ) (y : ℕ → ℕ)
    (h : (perturb M cf rand N d x y).toOption.isSome = true) :
    perturb M cf rand N d x y =
      .ok (((perturb M cf rand N d x y).toOption.map Prod.fst).getD (fun _ _ => 0),
        confAfter M cf) := by
  rcases hX : perturb M cf rand N d x y with e | p
  · rw [hX] at h
    simp [Except.toOption] at h
  · have hp2 : perturb M cf rand N d x y = .ok (p.1, p.2) := by rw [hX]
    obtain ⟨hcf2, -⟩ := perturb_ok_inv hp2
    exact congrArg Except.ok (Prod.ext rfl hcf2)


theorem iterUpdate_pTotal (ctx : LoopCtx) (st : LoopState) (adv : ℕ → Bool)
    (diffs : List GradsOut) (n j : ℕ) :
    (iterUpdate ctx st adv diffs).pTotal n j =
      clampQ (st.pTotal n j +
          get_perturbations (selDist ctx.d ctx.K diffs) (selGrad ctx.d ctx.K diffs) n j)
        (-ctx.eps) ctx.eps := rfl

theorem iterUpdate_x (ctx : LoopCtx) (st : LoopState) (adv : ℕ → Bool)
    (diffs : List GradsOut) (n j : ℕ) :
    (iterUpdate ctx st adv diffs).x n j =
      clampQ
        (if adv n then st.x n j
         else ctx.x0 n j + (1 + ctx.overshoot) * (iterUpdate ctx st adv diffs).pTotal n j)
        ctx.clip_min ctx.clip_max := rfl

/-- The cumulative perturbation stays inside the linf budget after every
executed iteration: it is clamped into `[-eps, eps]` each time. -/
theorem runAtk_pTotal_bound {ctx : LoopCtx} (he : 0 ≤ ctx.eps) :
    ∀ (fuel : ℕ) (st s : LoopState),
      (∀ n j, -ctx.eps ≤ st.pTotal n j ∧ st.pTotal n j ≤ ctx.eps) →
      runAtk ctx fuel st = .ok s →
      ∀ n j, -ctx.eps ≤ s.pTotal n j ∧ s.pTotal n j ≤ ctx.eps := by
  intro fuel
  induction fuel with
  | zero =>
    intro st s hst hrun
    rw [runAtk_zero] at hrun
    cases hrun
    exact hst
  | succ m ih =>
    intro st s hst hrun
    rcases h : iterStep ctx st with e | ⟨ks, ost⟩
    · rw [runAtk_succ_err h] at hrun
      cases hrun
    · cases ost with
      | none =>
        rw [runAtk_succ_break h] at hrun
        cases hrun
        exact hst
      | some st2 =>
        rw [runAtk_succ_cont h] at hrun
        obtain ⟨hup, -⟩ := iterStep_some_inv h
        refine ih st2 s ?_ hrun
        intro n j
        rw [hup, iterUpdate_pTotal]
        exact ⟨lo_le_clampQ _ (by linarith), clampQ_le_hi _ _ _⟩

/-- Budget and clipping invariant of the working point: when the original
input lies inside the clipping box, every reachable working point stays in
the box and within `(1 + overshoot) * eps` of the original input. -/
theorem runAtk_budget {ctx : LoopCtx} (he : 0 ≤ ctx.eps) (ho : 0 ≤ ctx.overshoot)
    (hc : ctx.clip_min ≤ ctx.clip_max)
    (hx0 : ∀ n j, ctx.clip_min ≤ ctx.x0 n j ∧ ctx.x0 n j ≤ ctx.clip_max) :
    ∀ (fuel : ℕ) (st s : LoopState),
      (∀ n j, |st.x n j - ctx.x0 n j| ≤ (1 + ctx.overshoot) * ctx.eps ∧
        ctx.clip_min ≤ st.x n j ∧ st.x n j ≤ ctx.clip_max) →
      runAtk ctx fuel st = .ok s →
      ∀ n j, |s.x n j - ctx.x0 n j| ≤ (1 + ctx.overshoot) * ctx.eps ∧
        ctx.clip_min ≤ s.x n j ∧ s.x n j ≤ ctx.clip_max := by
  intro fuel
  induction fuel with
  | zero =>
    intro st s hst hrun
    rw [runAtk_zero] at hrun
    cases hrun
    exact hst
  | succ m ih =>
    intro st s hst hrun
    rcases h : iterStep ctx st with e | ⟨ks, ost⟩
    · rw [runAtk_succ_err h] at hrun
      cases hrun
    · cases ost with
      | none =>
        rw [runAtk_succ_break h] at hrun
        cases hrun
        exact hst
      | some st2 =>
        rw [runAtk_succ_cont h] at hrun
        obtain ⟨hup, -⟩ := iterStep_some_inv h
        refine ih st2 s ?_ hrun
        intro n j
        rw [hup, iterUpdate_x]
        refine ⟨?_, lo_le_clampQ _ hc, clampQ_le_hi _ _ _⟩
        by_cases hadv : iterAdv ctx st n
        · rw [if_pos hadv, clampQ_of_mem (hst n j).2.1 (hst n j).2.2]
          exact (hst n j).1
        · rw [if_neg hadv]
          have hproj := abs_clampQ_sub_le
            (ctx.x0 n j + (1 + ctx.overshoot) *
              (iterUpdate ctx st (iterAdv ctx st) (iterDiffs ctx st)).pTotal n j)
            (hx0 n j).1 (hx0 n j).2
          refine hproj.trans ?_
          have hsimp : ctx.x0 n j + (1 + ctx.overshoot) *
              (iterUpdate ctx st (iterAdv ctx st) (iterDiffs ctx st)).pTotal n j -
              ctx.x0 n j =
              (1 + ctx.overshoot) *
              (iterUpdate ctx st (iterAdv ctx st) (iterDiffs ctx st)).pTotal n j := by
            ring
          rw [hsimp, abs_mul, abs_of_nonneg (by linarith : (0:ℚ) ≤ 1 + ctx.overshoot)]
          have hpt : |(iterUpdate ctx st (iterAdv ctx st) (iterDiffs ctx st)).pTotal n j| ≤
              ctx.eps := by
            rw [iterUpdate_pTotal]
            exact abs_clampQ_le _ he
          exact mul_le_mul_of_nonneg_left hpt (by linarith)

/-- Per-sample clipping-box invariant: a sample whose working point lies in
the box keeps a working point in the box, whatever happens to the rest of
the batch. -/
theorem runAtk_sample_box {ctx : LoopCtx} (hc : ctx.clip_min ≤ ctx.clip_max) (n : ℕ) :
    ∀ (fuel : ℕ) (st s : LoopState),
      (∀ j, ctx.clip_min ≤ st.x n j ∧ st.x n j ≤ ctx.clip_max) →
      runAtk ctx fuel st = .ok s →
      ∀ j, ctx.clip_min ≤ s.x n j ∧ s.x n j ≤ ctx.clip_max := by
  intro fuel
  induction fuel with
  | zero =>
    intro st s hst hrun
    rw [runAtk_zero] at hrun
    cases hrun
    exact hst
  | succ m ih =>
    intro st s hst hrun
    rcases h : iterStep ctx st with e | ⟨ks, ost⟩
    · rw [runAtk_succ_err h] at hrun
      cases hrun
    · cases ost with
      | none =>
        rw [runAtk_succ_break h] at hrun
        cases hrun
        exact hst
      | some st2 =>
        rw [runAtk_succ_cont h] at hrun
        obtain ⟨hup, -⟩ := iterStep_some_inv h
        refine ih st2 s ?_ hrun
        intro j
        rw [hup, iterUpdate_x]
        exact ⟨lo_le_clampQ _ hc, clampQ_le_hi _ _ _⟩

/-- Freeze property: a sample that is adversarial at the current working
point, with that point inside the clipping box, is never moved again by any
number of further iterations (the deterministic per-sample classifier keeps
reporting it adversarial, the select keeps its point, and the batch-wide
clamp is the identity on it). -/
theorem runAtk_freeze {ctx : LoopCtx} (n : ℕ) :
    ∀ (fuel : ℕ) (st s : LoopState),
      (∀ j, ctx.clip_min ≤ st.x n j ∧ st.x n j ≤ ctx.clip_max) →
      is_adv ctx.M.C (ctx.M.logits (st.x n)) (ctx.y n) = true →
      runAtk ctx fuel st = .ok s →
      ∀ j, s.x n j = st.x n j := by
  intro fuel
  induction fuel with
  | zero =>
    intro st s hst hadv hrun
    rw [runAtk_zero] at hrun
    cases hrun
    intro j
    rfl
  | succ m ih =>
    intro st s hst hadv hrun
    rcases h : iterStep ctx st with e | ⟨ks, ost⟩
    · rw [runAtk_succ_err h] at hrun
      cases hrun
    · cases ost with
      | none =>
        rw [runAtk_succ_break h] at hrun
        cases hrun
        intro j
        rfl
      | some st2 =>
        rw [runAtk_succ_cont h] at hrun
        obtain ⟨hup, -⟩ := iterStep_some_inv h
        have hA : iterAdv ctx st n = true := by
          rw [iterAdv_eq]
          exact hadv
        have hkeep : ∀ j, st2.x n j = st.x n j := by
          intro j
          rw [hup, iterUpdate_x, if_pos hA]
          exact clampQ_of_mem (hst j).1 (hst j).2
        have hfun : st2.x n = st.x n := funext hkeep
        have hst2 : ∀ j, ctx.clip_min ≤ st2.x n j ∧ st2.x n j ≤ ctx.clip_max := by
          intro j
          rw [hkeep j]
          exact hst j
        have hadv2 : is_adv ctx.M.C (ctx.M.logits (st2.x n)) (ctx.y n) = true := by
          rw [hfun]
          exact hadv
        intro j
        rw [ih st2 s hst2 hadv2 hrun j, hkeep j]

/-- C4: for every batch of stacked delta logits and stacked gradients, the
normalized distance per candidate equals the absolute delta logit divided by
the sum of absolute gradient values over all non-batch dimensions plus
`1e-8`, the selected challenger is the index of the first minimum of these
distances (stable argmin), and the gathered distance and gradient are taken
at exactly that index. -/
theorem listSum_range_eq (d : ℕ) (f : ℕ → ℚ) :
    ((List.range d).map f).sum = ∑ j ∈ Finset.range d, f j := by
  induction d with
  | zero => rfl
  | succ m ih =>
    rw [List.range_succ, List.map_append, List.sum_append, Finset.sum_range_succ, ih]
    simp

theorem C4_distance_selection (d K : ℕ) (diffs : List GradsOut) (n : ℕ)
    (hK : 0 < K - 1) :
    (∀ k, get_distances d (stackDeltas diffs) (stackGrads diffs) n k =
      |stackDeltas diffs n k| /
        ((∑ j ∈ Finset.range d, |stackGrads diffs n k j|) + 1 / 100000000)) ∧
    bestIdx d K diffs n < K - 1 ∧
    (∀ k < K - 1,
      get_distances d (stackDeltas diffs) (stackGrads diffs) n (bestIdx d K diffs n) ≤
        get_distances d (stackDeltas diffs) (stackGrads diffs) n k) ∧
    (∀ k < bestIdx d K diffs n,
      get_distances d (stackDeltas diffs) (stackGrads diffs) n (bestIdx d K diffs n) <
        get_distances d (stackDeltas diffs) (stackGrads diffs) n k) ∧
    selDist d K diffs n =
      get_distances d (stackDeltas diffs) (stackGrads diffs) n (bestIdx d K diffs n) +
        1 / 10000 ∧
    selGrad d K diffs n = fun j => stackGrads diffs n (bestIdx d K diffs n) j := by
  obtain ⟨h1, h2, h3⟩ := argminQ_spec
    (fun c => get_distances d (stackDeltas diffs) (stackGrads diffs) n c) (K - 1) hK
  refine ⟨fun k => ?_, h1, h2, h3, rfl, rfl⟩
  unfold get_distances
  rw [listSum_range_eq]

/-- Concrete diffs list for the C4 witness: three candidates with distances
in proportion 5, 2, 2, so that the stable argmin must pick index 1. -/
def c4diffs : List GradsOut :=
  [⟨fun _ => 5, fun _ _ => 1, fun _ _ => 0⟩,
   ⟨fun _ => 2, fun _ _ => 1, fun _ _ => 0⟩,
   ⟨fun _ => 2, fun _ _ => 1, fun _ _ => 0⟩]

theorem C4_distance_selection_witness :
    0 < 4 - 1 ∧
      (bestIdx 1 4 c4diffs 0 < 4 - 1 ∧
        (∀ k < 4 - 1,
          get_distances 1 (stackDeltas c4diffs) (stackGrads c4diffs) 0 (bestIdx 1 4 c4diffs 0) ≤
            get_distances 1 (stackDeltas c4diffs) (stackGrads c4diffs) 0 k) ∧
        ∀ k < bestIdx 1 4 c4diffs 0,
          get_distances 1 (stackDeltas c4diffs) (stackGrads c4diffs) 0 (bestIdx 1 4 c4diffs 0) <
            get_distances 1 (stackDeltas c4diffs) (stackGrads c4diffs) 0 k) ∧
      bestIdx 1 4 c4diffs 0 = 1 :=
  ⟨by decide,
    ⟨(C4_distance_selection 1 4 c4diffs 0 (by decide)).2.1,
      (C4_distance_selection 1 4 c4diffs 0 (by decide)).2.2.1,
      (C4_distance_selection 1 4 c4diffs 0 (by decide)).2.2.2.1⟩,
    by decide⟩

/-- C10: every `get_grads` call returns as `grads` the accumulation buffer
plus the gradient of the summed delta logit at the current working point and
leaves the buffer zeroed; consequently, in any chain of `get_grads` calls of
one iteration starting from the fresh zero buffer, every call starts from a
clean zero buffer and returns exactly the gradient of the summed delta
logit with respect to the current working point. -/
theorem C10_grad_buffer :
    (∀ (M : Classifier) (x : ℕ → ℕ → ℚ) (k : ℕ) (classes : ℕ → List ℕ)
        (buf : ℕ → ℕ → ℚ),
      (get_grads M x k classes buf).1.grads =
        (fun n j => buf n j + deltaGrad M x k classes n j) ∧
      (get_grads M x k classes buf).2 = fun _ _ => 0) ∧
    ∀ (M : Classifier) (x : ℕ → ℕ → ℚ) (classes : ℕ → List ℕ) (ks : List ℕ)
      (r : GradCallRec), r ∈ collectDiffs M x classes ks (fun _ _ => 0) →
      r.bufBefore = (fun _ _ => 0) ∧
        r.out.grads = deltaGrad M x r.k classes ∧
        r.bufAfter = fun _ _ => 0 := by
  refine ⟨fun M x k classes buf => ⟨rfl, rfl⟩, ?_⟩
  intro M x classes ks
  induction ks with
  | nil =>
    intro r hr
    exact absurd hr (List.not_mem_nil r)
  | cons k ks ih =>
    intro r hr
    rcases List.mem_cons.mp hr with h | h
    · subst h
      refine ⟨rfl, ?_, rfl⟩
      funext n j
      show 0 + deltaGrad M x k classes n j = deltaGrad M x k classes n j
      rw [zero_add]
    · exact ih r h

/-- Classifier for the C10 witness: two classes with distinct constant
gradients. -/
def c10M : Classifier :=
  ⟨2, fun v c => if c = 0 then v 0 else 2 * v 0,
    fun _ c _ => if c = 0 then 1 else 2⟩

def c10rec : GradCallRec :=
  (collectDiffs c10M (fun _ _ => 3) (fun _ => [0, 1]) [1] (fun _ _ => 0)).getD 0 default

theorem C10_grad_buffer_witness :
    c10rec ∈ collectDiffs c10M (fun _ _ => 3) (fun _ => [0, 1]) [1] (fun _ _ => 0) ∧
      (c10rec.bufBefore = (fun _ _ => 0) ∧
        c10rec.out.grads = deltaGrad c10M (fun _ _ => 3) c10rec.k (fun _ => [0, 1]) ∧
        c10rec.bufAfter = fun _ _ => 0) :=
  ⟨List.mem_cons_self c10rec [],
    C10_grad_buffer.2 c10M (fun _ _ => 3) (fun _ => [0, 1]) [1] c10rec
      (List.mem_cons_self c10rec [])⟩

/-- C8: the loop trace never has more entries than the fuel `nb_iter`, and
an iteration entered with a fully adversarial batch evaluates only the
k = 1 challenger (no k ≥ 2 challenger) and is the last: the loop result is
that iteration's entry state. -/
theorem C8_loop_bound :
    (∀ (ctx : LoopCtx) (fuel : ℕ) (st s : LoopState) (t : List (LoopState × List ℕ)),
      runLoop ctx fuel st = .ok (s, t) →
      t.length ≤ fuel ∧
        ∀ p ∈ t, (List.range ctx.N).all (iterAdv ctx p.1) = true →
          p.2 = [1] ∧ s = p.1) ∧
    ∀ (M : Classifier) (cf : AttackConf) (x : ℕ → ℕ → ℚ) (y : ℕ → ℕ) (N d : ℕ)
      (st s : LoopState) (t : List (LoopState × List ℕ)),
      0 ≤ cf.nb_iter →
      runLoop (perturbCtx M cf x y N d) cf.nb_iter.toNat st = .ok (s, t) →
      (t.length : ℤ) ≤ cf.nb_iter := by
  have main : ∀ (ctx : LoopCtx) (fuel : ℕ) (st s : LoopState)
      (t : List (LoopState × List ℕ)),
      runLoop ctx fuel st = .ok (s, t) →
      t.length ≤ fuel ∧
        ∀ p ∈ t, (List.range ctx.N).all (iterAdv ctx p.1) = true →
          p.2 = [1] ∧ s = p.1 := by
    intro ctx fuel
    induction fuel with
    | zero =>
      intro st s t hrun
      cases hrun
      exact ⟨Nat.le_refl 0, fun p hp => absurd hp (List.not_mem_nil p)⟩
    | succ m ih =>
      intro st s t hrun
      rw [runLoop_succ] at hrun
      rcases h : iterStep ctx st with e | ⟨ks, ost⟩
      · rw [h] at hrun
        cases hrun
      · cases ost with
        | none =>
          rw [h] at hrun
          cases hrun
          obtain ⟨hks, -⟩ := iterStep_none_inv h
          refine ⟨by simp, ?_⟩
          intro p hp hall
          rcases List.mem_singleton.mp hp with rfl
          exact ⟨hks, rfl⟩
        | some st2 =>
          rw [h] at hrun
          replace hrun :
              (match runLoop ctx m st2 with
                | Except.error e => Except.error e
                | Except.ok p => Except.ok (p.1, (st, ks) :: p.2)) =
                Except.ok (s, t) := hrun
          rcases hr : runLoop ctx m st2 with e | q
          · rw [hr] at hrun
            cases hrun
          · rw [hr] at hrun
            cases hrun
            obtain ⟨hlen, htail⟩ := ih st2 q.1 q.2 (by rw [hr])
            obtain ⟨-, hnotall⟩ := iterStep_some_inv h
            refine ⟨by simpa using Nat.succ_le_succ hlen, ?_⟩
            intro p hp hall
            rcases List.mem_cons.mp hp with rfl | hp2
            · rw [hall] at hnotall
              cases hnotall
            · exact htail p hp2 hall
  refine ⟨main, ?_⟩
  intro M cf x y N d st s t hge hrun
  have := (main _ _ _ _ _ hrun).1
  omega

/-- C6: the cumulative perturbation `p_total` is initialized to zero and,
after every executed iteration (not just the final one), every element lies
within `[-eps, eps]`. -/
theorem C6_ptotal_invariant (M : Classifier) (cf : AttackConf) (x : ℕ → ℕ → ℚ)
    (y : ℕ → ℕ) (N d : ℕ) (he : 0 ≤ cf.eps) :
    (∀ n j, (initState x).pTotal n j = 0) ∧
      ∀ (i : ℕ) (s : LoopState),
        runAtk (perturbCtx M cf x y N d) i (initState x) = .ok s →
        ∀ n j, -cf.eps ≤ s.pTotal n j ∧ s.pTotal n j ≤ cf.eps := by
  refine ⟨fun n j => rfl, fun i s hrun n j => ?_⟩
  refine runAtk_pTotal_bound he i (initState x) s ?_ hrun n j
  intro n2 j2
  constructor
  · show -cf.eps ≤ (0 : ℚ)
    linarith
  · show (0 : ℚ) ≤ cf.eps
    exact he

/-- Concrete linear two-class classifier: logits `(0, v - 10)`, so that the
label zero sample is never adversarial, with the gradient of the second
logit equal to one. -/
def linM : Classifier :=
  ⟨2, fun v c => if c = 0 then 0 else v 0 - 10, fun _ c _ => if c = 0 then 0 else 1⟩

/-- Default-like configuration with one iteration. -/
def c1cf : AttackConf := ⟨some 2, 1, 1/10, false, 1/50, 0, 1⟩

def c6st : LoopState :=
  (runAtk (perturbCtx linM c1cf (fun _ _ => 1/2) (fun _ => 0) 1 1) 1
      (initState fun _ _ => 1/2)).toOption.getD (initState fun _ _ => 1/2)

theorem c6st_spec :
    runAtk (perturbCtx linM c1cf (fun _ _ => 1/2) (fun _ => 0) 1 1) 1
      (initState fun _ _ => 1/2) = .ok c6st := by
  rcases hX : runAtk (perturbCtx linM c1cf (fun _ _ => 1/2) (fun _ => 0) 1 1) 1
      (initState fun _ _ => 1/2) with e | st
  · have hs : (runAtk (perturbCtx linM c1cf (fun _ _ => 1/2) (fun _ => 0) 1 1) 1
        (initState fun _ _ => 1/2)).toOption.isSome = true := by decide
    rw [hX] at hs
    simp [Except.toOption] at hs
  · unfold c6st
    rw [hX]
    rfl

theorem C6_ptotal_invariant_witness :
    (0 : ℚ) ≤ c1cf.eps ∧
      ((∀ n j, (initState (fun _ _ => (1:ℚ)/2)).pTotal n j = 0) ∧
        ∀ n j, -c1cf.eps ≤ c6st.pTotal n j ∧ c6st.pTotal n j ≤ c1cf.eps) :=
  ⟨by decide,
    (C6_ptotal_invariant linM c1cf (fun _ _ => 1/2) (fun _ => 0) 1 1 (by decide)).1,
    fun n j =>
      (C6_ptotal_invariant linM c1cf (fun _ _ => 1/2) (fun _ => 0) 1 1 (by decide)).2
        1 c6st c6st_spec n j⟩

/-- Configuration with `nb_iter = 0`. -/
def c7cf : AttackConf := ⟨some 2, 0, 1/10, false, 1/50, 0, 1⟩

/-- C7 counterexample: with `nb_iter = 0` and the out-of-range input `2`,
`perturb` returns `2` itself, not the clipped input `clamp(2, 0, 1) = 1`:
no clipping is applied on this path. -/
theorem C7_identity_cex :
    (perturb linM c7cf (fun _ => 0) 1 1 (fun _ _ => 2) (fun _ => 0)).toOption.map
        (fun p => p.1 0 0) = some 2 ∧
      clampQ 2 c7cf.clip_min c7cf.clip_max = 1 ∧ (2 : ℚ) ≠ 1 := by decide

/-- C7 amended: with `nb_iter ≤ 0`, or with a classifier whose top-1 class
already differs from the label for every sample of the batch, `perturb`
returns the input unchanged — without applying any clipping (the returned
batch equals the clipped input only when the input is already within
bounds). -/
theorem C7_identity_amended (M : Classifier) (cf : AttackConf) (rand : ℕ → ℕ)
    (N d : ℕ) (x : ℕ → ℕ → ℚ) (y : ℕ → ℕ) (out : ℕ → ℕ → ℚ) (cf2 : AttackConf)
    (hp : perturb M cf rand N d x y = .ok (out, cf2))
    (hcase : cf.nb_iter ≤ 0 ∨
      (List.range N).all (fun n => is_adv M.C (M.logits (x n)) (y n)) = true) :
    out = x := by
  obtain ⟨-, st, hrun, hout⟩ := perturb_ok_inv hp
  rcases hcase with hle | hall
  · have h0 : cf.nb_iter.toNat = 0 := by omega
    rw [h0, runAtk_zero] at hrun
    cases hrun
    rw [hout]
    rfl
  · have hall2 : (List.range (perturbCtx M cf x y N d).N).all
        (iterAdv (perturbCtx M cf x y N d) (initState x)) = true := hall
    rw [runAtk_break_idem hall2] at hrun
    cases hrun
    rw [hout]
    rfl

def c7out : ℕ → ℕ → ℚ :=
  ((perturb linM c7cf (fun _ => 0) 1 1 (fun _ _ => 2) (fun _ => 0)).toOption.map
      Prod.fst).getD (fun _ _ => 0)

theorem c7perturb_spec :
    perturb linM c7cf (fun _ => 0) 1 1 (fun _ _ => 2) (fun _ => 0) =
      .ok (c7out, confAfter linM c7cf) := by
  rcases hX : perturb linM c7cf (fun _ => 0) 1 1 (fun _ _ => 2) (fun _ => 0) with e | p
  · have hs : (perturb linM c7cf (fun _ => 0) 1 1 (fun _ _ => 2)
        (fun _ => 0)).toOption.isSome = true := by decide
    rw [hX] at hs
    simp [Except.toOption] at hs
  · have hp2 : perturb linM c7cf (fun _ => 0) 1 1 (fun _ _ => 2) (fun _ => 0) =
        .ok (p.1, p.2) := by rw [hX]
    obtain ⟨hcf2, -⟩ := perturb_ok_inv hp2
    have h1 : c7out = p.1 := by
      unfold c7out
      rw [hX]
      rfl
    exact congrArg Except.ok (Prod.ext h1.symm hcf2)

theorem C7_identity_amended_witness : c7out = fun _ _ => (2 : ℚ) :=
  C7_identity_amended linM c7cf (fun _ => 0) 1 1 (fun _ _ => 2) (fun _ => 0) c7out
    (confAfter linM c7cf) c7perturb_spec
    (Or.inl (by decide))

/-- Malformed configuration: negative iteration count. -/
def c9a : AttackConf := ⟨some 2, -1, 1/10, false, 1/50, 0, 1⟩

/-- Malformed configuration: class count below two, loop not entered. -/
def c9b : AttackConf := ⟨some 1, 0, 1/10, false, 1/50, 0, 1⟩

/-- Malformed configuration: class count below two, loop entered. -/
def c9c : AttackConf := ⟨some 1, 1, 1/10, false, 1/50, 0, 1⟩

/-- C9 counterexample: both malformed configurations — negative `nb_iter`
and `num_classes = 1` with the loop not entered — make `perturb` succeed
silently, returning the input; no caller-input error is surfaced. -/
theorem C9_validation_cex :
    (perturb linM c9a (fun _ => 0) 1 1 (fun _ _ => 1/2) (fun _ => 0)).toOption.map
        (fun p => p.1 0 0) = some (1/2) ∧
      (perturb linM c9b (fun _ => 0) 1 1 (fun _ _ => 1/2) (fun _ => 0)).toOption.map
        (fun p => p.1 0 0) = some (1/2) := by decide

/-- C9 amended: no configuration validation is performed.  A non-positive
`nb_iter` silently returns the input; `num_classes < 2` surfaces only as the
in-loop shape assertion, and only when an iteration actually executes on a
batch that is not yet fully adversarial. -/
theorem C9_validation_amended :
    (∀ (M : Classifier) (cf : AttackConf) (rand : ℕ → ℕ) (N d : ℕ)
        (x : ℕ → ℕ → ℚ) (y : ℕ → ℕ),
      cf.nb_iter ≤ 0 → AttackConf.random_class cf = false →
      perturb M cf rand N d x y = .ok (x, confAfter M cf)) ∧
    ∀ (M : Classifier) (cf : AttackConf) (rand : ℕ → ℕ) (N d : ℕ)
      (x : ℕ → ℕ → ℚ) (y : ℕ → ℕ),
      cf.num_classes = some 1 → AttackConf.random_class cf = false →
      1 ≤ cf.nb_iter →
      (List.range N).all (fun n => is_adv M.C (M.logits (x n)) (y n)) = false →
      ∃ e, perturb M cf rand N d x y = .error e := by
  constructor
  · intro M cf rand N d x y hle hrc
    unfold perturb
    rw [hrc]
    have h0 : cf.nb_iter.toNat = 0 := by omega
    rw [h0]
    rfl
  · intro M cf rand N d x y hnc hrc hge hadv
    have hK : effectiveK M cf ≤ 1 := by
      unfold effectiveK
      rw [hrc, hnc]
      simp
    have hdrop : (List.range (effectiveK M cf)).drop 2 = [] := by
      refine List.drop_eq_nil_of_le ?_
      simp only [List.length_range]
      omega
    have hlen : (iterDiffs (perturbCtx M cf x y N d) (initState x)).length = 1 := by
      unfold iterDiffs
      rw [show (perturbCtx M cf x y N d).K = effectiveK M cf from rfl, hdrop]
      simp [collectDiffs]
    have hne : ¬(iterDiffs (perturbCtx M cf x y N d) (initState x)).length =
        (perturbCtx M cf x y N d).K - 1 := by
      rw [hlen, show (perturbCtx M cf x y N d).K = effectiveK M cf from rfl]
      omega
    have hadv2 : (List.range (perturbCtx M cf x y N d).N).all
        (iterAdv (perturbCtx M cf x y N d) (initState x)) = false := hadv
    have hstep : iterStep (perturbCtx M cf x y N d) (initState x) =
        .error "assertion failed: deltas.shape" := by
      unfold iterStep
      rw [hadv2, if_neg (by simp), if_neg hne]
    obtain ⟨m, hm⟩ : ∃ m, cf.nb_iter.toNat = m + 1 :=
      ⟨cf.nb_iter.toNat - 1, by omega⟩
    refine ⟨"assertion failed: deltas.shape", ?_⟩
    unfold perturb
    rw [hrc, Bool.false_and, if_neg (by simp), hm, runLoop_succ, hstep]

theorem C9_validation_amended_witness :
    (perturb linM c9a (fun _ => 0) 1 1 (fun _ _ => 1/2) (fun _ => 0) =
      .ok ((fun _ _ => 1/2), confAfter linM c9a)) ∧
      ∃ e, perturb linM c9c (fun _ => 0) 1 1 (fun _ _ => 9) (fun _ => 0) = .error e :=
  ⟨C9_validation_amended.1 linM c9a (fun _ => 0) 1 1 (fun _ _ => 1/2) (fun _ => 0)
      (by decide) (by decide),
    C9_validation_amended.2 linM c9c (fun _ => 0) 1 1 (fun _ _ => 9) (fun _ => 0)
      (by decide) (by decide) (by decide) (by decide)⟩

/-- Configuration leaving `num_classes` unset. -/
def c3cf : AttackConf := ⟨none, 1, 1/10, false, 1/50, 0, 1⟩

/-- C3 counterexample: the attack object's `num_classes` is `None` before
the call and `2` (the class count of the classifier) after it — `perturb`
mutates the constructor-time configuration. -/
theorem C3_config_mutation_cex :
    c3cf.num_classes = none ∧
      (perturb linM c3cf (fun _ => 0) 1 1 (fun _ _ => 1/2) (fun _ => 0)).toOption.map
        (fun p => p.2.num_classes) = some (some 2) := by decide

/-- C3 amended: a `perturb` call leaves every configuration field except
`num_classes` unchanged, but reassigns `num_classes` to the effective class
count.  The reassignment is idempotent: a second call on the resulting
configuration, with the same inputs (and any valid draw oracle), returns
the same output and the same configuration — no further state drifts across
calls. -/
theorem C3_frame_amended (M : Classifier) (cf : AttackConf) (rand rand2 : ℕ → ℕ)
    (N d : ℕ) (x : ℕ → ℕ → ℚ) (y : ℕ → ℕ) (out : ℕ → ℕ → ℚ) (cf2 : AttackConf)
    (hp : perturb M cf rand N d x y = .ok (out, cf2))
    (hr2 : AttackConf.random_class cf = true → randOk M rand2 N = true) :
    (cf2.nb_iter = cf.nb_iter ∧ cf2.eps = cf.eps ∧
      AttackConf.random_class cf2 = AttackConf.random_class cf ∧
      cf2.overshoot = cf.overshoot ∧ cf2.clip_min = cf.clip_min ∧
      cf2.clip_max = cf.clip_max ∧ cf2.num_classes = some (effectiveK M cf)) ∧
    perturb M cf2 rand2 N d x y = .ok (out, cf2) := by
  obtain ⟨hcf2, st, hrun, hout⟩ := perturb_ok_inv hp
  subst hcf2
  refine ⟨⟨rfl, rfl, rfl, rfl, rfl, rfl, rfl⟩, ?_⟩
  have hchk2 : (AttackConf.random_class (confAfter M cf) && !randOk M rand2 N) = false := by
    cases hbb : AttackConf.random_class cf with
    | true =>
      rw [show AttackConf.random_class (confAfter M cf) = AttackConf.random_class cf
        from rfl, hbb, hr2 hbb]
      rfl
    | false =>
      rw [show AttackConf.random_class (confAfter M cf) = AttackConf.random_class cf
        from rfl, hbb]
      rfl
  rw [perturb_eq_of_check M (confAfter M cf) rand2 N d x y hchk2]
  rw [perturbCtx_confAfter, confAfter_confAfter]
  rw [show (confAfter M cf).nb_iter = cf.nb_iter from rfl]
  unfold runAtk at hrun
  rcases hr : runLoop (perturbCtx M cf x y N d) cf.nb_iter.toNat (initState x) with e | p
  · rw [hr] at hrun
    simp [Except.map] at hrun
  · rw [hr] at hrun
    simp [Except.map] at hrun
    rw [hout, ← hrun]

def c3out : ℕ → ℕ → ℚ :=
  ((perturb linM c3cf (fun _ => 0) 1 1 (fun _ _ => 1/2) (fun _ => 0)).toOption.map
      Prod.fst).getD (fun _ _ => 0)

theorem C3_frame_witness :
    ((confAfter linM c3cf).nb_iter = c3cf.nb_iter ∧
      (confAfter linM c3cf).eps = c3cf.eps ∧
      AttackConf.random_class (confAfter linM c3cf) = AttackConf.random_class c3cf ∧
      (confAfter linM c3cf).overshoot = c3cf.overshoot ∧
      (confAfter linM c3cf).clip_min = c3cf.clip_min ∧
      (confAfter linM c3cf).clip_max = c3cf.clip_max ∧
      (confAfter linM c3cf).num_classes = some (effectiveK linM c3cf)) ∧
    perturb linM (confAfter linM c3cf) (fun _ => 0) 1 1 (fun _ _ => 1/2) (fun _ => 0) =
      .ok (c3out, confAfter linM c3cf) :=
  C3_frame_amended linM c3cf (fun _ => 0) (fun _ => 0) 1 1 (fun _ _ => 1/2)
    (fun _ => 0) c3out (confAfter linM c3cf)
    (perturb_extract linM c3cf (fun _ => 0) 1 1 (fun _ _ => 1/2) (fun _ => 0) (by decide))
    (fun hb => absurd hb (by decide))

/-- Modelled from the spec: the intended candidate pair of randomized-class
mode — the original top-1 class concatenated with the class at the randomly
drawn rank `r` of the sorted candidate list.  This is exactly the value the
`torch.cat` of lines 114-115 computes; the source never assigns it. -/
def specRandomCandidates (classes : List ℕ) (r : ℕ) : List ℕ :=
  [classes.getD 0 0, classes.getD r 0]

/-- Three-class classifier whose initial scores rank the classes in the
order 0, 1, 2. -/
def c2M : Classifier :=
  ⟨3, fun _ c => if c = 0 then 5 else if c = 1 then 4 else 3, fun _ _ _ => 1⟩

/-- Randomized-class configuration. -/
def c2cf : AttackConf := ⟨some 3, 1, 1/10, true, 1/50, 0, 1⟩

/-- C2: `num_classes` is indeed forced to 2, but the candidate set is not
replaced: with the random draw at rank 2, the loop still uses the full
argsorted list, whose rank-1 entry (class 1, the second-ranked class) is the
challenger — not the drawn class 2 — and the output is identical under a
different draw.  The `torch.cat` of lines 114-115 is dead code. -/
theorem C2_randomized_mode_bug :
    perturbClasses c2M (fun _ _ => 1/2) 0 = [0, 1, 2] ∧
      specRandomCandidates (perturbClasses c2M (fun _ _ => 1/2) 0) 2 = [0, 2] ∧
      (perturbCtx c2M c2cf (fun _ _ => 1/2) (fun _ => 0) 1 1).classes 0 = [0, 1, 2] ∧
      ((perturbCtx c2M c2cf (fun _ _ => 1/2) (fun _ => 0) 1 1).classes 0).getD 1 0 = 1 ∧
      (specRandomCandidates (perturbClasses c2M (fun _ _ => 1/2) 0) 2).getD 1 0 = 2 ∧
      (1 : ℕ) ≠ 2 ∧
      (perturb c2M c2cf (fun _ => 2) 1 1 (fun _ _ => 1/2) (fun _ => 0)).toOption.map
        (fun p => p.2.num_classes) = some (some 2) ∧
      (perturb c2M c2cf (fun _ => 2) 1 1 (fun _ _ => 1/2) (fun _ => 0)).toOption.map
        (fun p => p.1 0 0) =
        (perturb c2M c2cf (fun _ => 1) 1 1 (fun _ _ => 1/2) (fun _ => 0)).toOption.map
          (fun p => p.1 0 0) := by decide

/-- C1 counterexample: with the default budget `eps = 0.1` and overshoot
`0.02`, one iteration moves the sample from `0.5` to `0.602`, exceeding the
budget by the overshoot factor; and with `nb_iter = 0` and the out-of-range
input `2`, the returned value `2` lies outside `[clip_min, clip_max]`. -/
theorem C1_linf_budget_cex :
    ((perturb linM c1cf (fun _ => 0) 1 1 (fun _ _ => 1/2) (fun _ => 0)).toOption.map
        (fun p => p.1 0 0) = some (301/500) ∧
      ¬(|(301 : ℚ)/500 - 1/2| ≤ c1cf.eps)) ∧
    ((perturb linM c7cf (fun _ => 0) 1 1 (fun _ _ => 2) (fun _ => 0)).toOption.map
        (fun p => p.1 0 0) = some 2 ∧
      ¬((2 : ℚ) ≤ c7cf.clip_max)) := by decide

/-- C1 amended: with a nonnegative budget and overshoot, ordered clipping
bounds and an input inside the clipping box, every element of the returned
batch stays within `(1 + overshoot) * eps` of the input (the linf budget is
enforced on `p_total` before the overshoot multiplication, so only this
inflated bound holds) and within `[clip_min, clip_max]`. -/
theorem C1_linf_budget_amended (M : Classifier) (cf : AttackConf) (rand : ℕ → ℕ)
    (N d : ℕ) (x : ℕ → ℕ → ℚ) (y : ℕ → ℕ) (out : ℕ → ℕ → ℚ) (cf2 : AttackConf)
    (he : 0 ≤ cf.eps) (ho : 0 ≤ cf.overshoot) (hc : cf.clip_min ≤ cf.clip_max)
    (hx : ∀ n j, cf.clip_min ≤ x n j ∧ x n j ≤ cf.clip_max)
    (hp : perturb M cf rand N d x y = .ok (out, cf2)) :
    ∀ n j, |out n j - x n j| ≤ (1 + cf.overshoot) * cf.eps ∧
      cf.clip_min ≤ out n j ∧ out n j ≤ cf.clip_max := by
  obtain ⟨-, st, hrun, hout⟩ := perturb_ok_inv hp
  have hinit : ∀ n j, |(initState x).x n j - x n j| ≤ (1 + cf.overshoot) * cf.eps ∧
      cf.clip_min ≤ (initState x).x n j ∧ (initState x).x n j ≤ cf.clip_max := by
    intro n j
    refine ⟨?_, (hx n j).1, (hx n j).2⟩
    show |x n j - x n j| ≤ _
    rw [sub_self, abs_zero]
    exact mul_nonneg (by linarith) he
  have hres := @runAtk_budget (perturbCtx M cf x y N d) he ho hc hx
    cf.nb_iter.toNat (initState x) st hinit hrun
  intro n j
  rw [hout]
  exact hres n j

def c1out : ℕ → ℕ → ℚ :=
  ((perturb linM c1cf (fun _ => 0) 1 1 (fun _ _ => 1/2) (fun _ => 0)).toOption.map
      Prod.fst).getD (fun _ _ => 0)

theorem C1_linf_budget_witness :
    ((0 : ℚ) ≤ c1cf.eps ∧ (0 : ℚ) ≤ c1cf.overshoot ∧ c1cf.clip_min ≤ c1cf.clip_max) ∧
      ∀ n j, |c1out n j - (1 : ℚ)/2| ≤ (1 + c1cf.overshoot) * c1cf.eps ∧
        c1cf.clip_min ≤ c1out n j ∧ c1out n j ≤ c1cf.clip_max :=
  ⟨⟨by decide, by decide, by decide⟩,
    C1_linf_budget_amended linM c1cf (fun _ => 0) 1 1 (fun _ _ => 1/2) (fun _ => 0)
      c1out (confAfter linM c1cf) (by decide) (by decide) (by decide)
      (fun n j => ⟨show c1cf.clip_min ≤ (1 : ℚ)/2 from by decide,
        show (1 : ℚ)/2 ≤ c1cf.clip_max from by decide⟩)
      (perturb_extract linM c1cf (fun _ => 0) 1 1 (fun _ _ => 1/2) (fun _ => 0)
        (by decide))⟩

/-- Two-class piecewise-linear classifier: logits `(0, v - 8/5)`.  A sample
at `2` is adversarial for label 0; at `1` or below it is not. -/
def c5M : Classifier :=
  ⟨2, fun v c => if c = 0 then 0 else v 0 - 8/5, fun _ c _ => if c = 0 then 0 else 1⟩

/-- Wide budget, two iterations. -/
def c5cf : AttackConf := ⟨some 2, 2, 2, false, 1/50, 0, 1⟩

/-- Batch of two: sample 0 at the out-of-range value 2, sample 1 at 0. -/
def c5x : ℕ → ℕ → ℚ := fun n _ => if n = 0 then 2 else 0

def c5xAt (i : ℕ) : Option ℚ :=
  (runAtk (perturbCtx c5M c5cf c5x (fun _ => 0) 2 1) i (initState c5x)).toOption.map
    (fun s => s.x 0 0)

/-- C5 counterexample: sample 0 is adversarial at the very first iteration
(value 2), yet the batch-wide clamp moves its frozen point to 1 within that
iteration, and a later iteration — after the clamped point stops being
adversarial — moves it again; the returned value differs from the value the
sample had when it became adversarial under either reading. -/
theorem C5_freeze_cex :
    is_adv c5M.C (c5M.logits (c5x 0)) 0 = true ∧
      c5xAt 0 = some 2 ∧ c5xAt 1 = some 1 ∧ c5xAt 2 ≠ c5xAt 1 ∧
      (perturb c5M c5cf (fun _ => 0) 2 1 c5x (fun _ => 0)).toOption.map
        (fun p => p.1 0 0) ≠ some 2 ∧
      (perturb c5M c5cf (fun _ => 0) 2 1 c5x (fun _ => 0)).toOption.map
        (fun p => p.1 0 0) ≠ some 1 := by decide

/-- C5 amended: for a sample whose input lies inside the clipping box, once
the (deterministic, per-sample) classifier reports it adversarial at the
state reached after `i` iterations, its working point is identical at every
later reachable state, and the value `perturb` returns for it equals its
value at iteration `i`. -/
theorem C5_freeze_amended (M : Classifier) (cf : AttackConf) (rand : ℕ → ℕ)
    (N d : ℕ) (x : ℕ → ℕ → ℚ) (y : ℕ → ℕ) (n i m : ℕ) (si sm : LoopState)
    (hc : cf.clip_min ≤ cf.clip_max)
    (hxn : ∀ j, cf.clip_min ≤ x n j ∧ x n j ≤ cf.clip_max)
    (hi : runAtk (perturbCtx M cf x y N d) i (initState x) = .ok si)
    (hadv : is_adv M.C (M.logits (si.x n)) (y n) = true)
    (him : i ≤ m)
    (hm : runAtk (perturbCtx M cf x y N d) m (initState x) = .ok sm) :
    (∀ j, sm.x n j = si.x n j) ∧
      ∀ (out : ℕ → ℕ → ℚ) (cf2 : AttackConf),
        perturb M cf rand N d x y = .ok (out, cf2) → i ≤ cf.nb_iter.toNat →
        ∀ j, out n j = si.x n j := by
  have hbox : ∀ j, cf.clip_min ≤ si.x n j ∧ si.x n j ≤ cf.clip_max :=
    runAtk_sample_box hc n i (initState x) si hxn hi
  have key : ∀ (m2 : ℕ) (s2 : LoopState), i ≤ m2 →
      runAtk (perturbCtx M cf x y N d) m2 (initState x) = .ok s2 →
      ∀ j, s2.x n j = si.x n j := by
    intro m2 s2 him2 hm2
    have hsplit : m2 = i + (m2 - i) := by omega
    rw [hsplit, runAtk_add, hi] at hm2
    have hm3 : runAtk (perturbCtx M cf x y N d) (m2 - i) si = .ok s2 := hm2
    exact runAtk_freeze n (m2 - i) si s2 hbox hadv hm3
  refine ⟨key m sm him hm, ?_⟩
  intro out cf2 hp hile
  obtain ⟨-, st, hrun, hout⟩ := perturb_ok_inv hp
  intro j
  rw [hout]
  exact key cf.nb_iter.toNat st hile hrun j

/-- Constant classifier making every label-0 sample adversarial at once. -/
def c5wM : Classifier := ⟨2, fun _ c => if c = 0 then 0 else 1, fun _ _ _ => 0⟩

def c5wx : ℕ → ℕ → ℚ := fun _ _ => 1/2

theorem C5_freeze_witness :
    (∀ j, (initState c5wx).x 0 j = (initState c5wx).x 0 j) ∧
      ∀ (out : ℕ → ℕ → ℚ) (cf2 : AttackConf),
        perturb c5wM c1cf (fun _ => 0) 1 1 c5wx (fun _ => 0) = .ok (out, cf2) →
        0 ≤ c1cf.nb_iter.toNat → ∀ j, out 0 j = (initState c5wx).x 0 j :=
  C5_freeze_amended c5wM c1cf (fun _ => 0) 1 1 c5wx (fun _ => 0) 0 0 1
    (initState c5wx) (initState c5wx) (by decide)
    (fun j => ⟨show c1cf.clip_min ≤ (1 : ℚ)/2 from by decide,
      show (1 : ℚ)/2 ≤ c1cf.clip_max from by decide⟩)
    rfl (by decide) (by decide)
    (runAtk_break_idem
      (show (List.range (perturbCtx c5wM c1cf c5wx (fun _ => 0) 1 1).N).all
          (iterAdv (perturbCtx c5wM c1cf c5wx (fun _ => 0) 1 1) (initState c5wx)) =
          true by decide) 1)

def c8ctx : LoopCtx := perturbCtx c5wM c1cf c5wx (fun _ => 0) 1 1

theorem c8run_spec :
    runLoop c8ctx 1 (initState c5wx) =
      .ok (initState c5wx, [(initState c5wx, [1])]) := by
  rw [runLoop_succ, iterStep_break (by decide)]

theorem C8_loop_bound_witness :
    (([(initState c5wx, [1])] : List (LoopState × List ℕ)).length ≤ 1 ∧
      (∀ p ∈ ([(initState c5wx, [1])] : List (LoopState × List ℕ)),
        (List.range c8ctx.N).all (iterAdv c8ctx p.1) = true →
        p.2 = [1] ∧ initState c5wx = p.1)) ∧
      ((([(initState c5wx, [1])] : List (LoopState × List ℕ)).length : ℤ) ≤
        c1cf.nb_iter) :=
  ⟨C8_loop_bound.1 c8ctx 1 (initState c5wx) (initState c5wx)
      [(initState c5wx, [1])] c8run_spec,
    C8_loop_bound.2 c5wM c1cf c5wx (fun _ => 0) 1 1 (initState c5wx)
      (initState c5wx) [(initState c5wx, [1])] (by decide) c8run_spec⟩

end

end DeepfoolLinf

